import Mathlib

/-!
Shallow embedding of `jsonapi.go` (package `jsonapi`), a minimal JSON REST
client: a `JSONAPI` configuration (base URL, static headers, middleware
list), a per-call `Request` builder, and `Request.execute`, which composes
the URL, serializes an optional payload, merges headers, runs the
middleware chain, dispatches over the shared `http.Client`, and routes the
outcome to one of three callbacks.

Modelling decisions:
* Callback invocations, middleware runs, the `client.Do` call and the
  response-body read/close are recorded as `Event`s in a trace, so
  "exactly one callback fires" and "no network call is made" are
  statements about the trace.  This is the tagged-result reading of the
  callback interface: the executor is deterministic, so the trace is a
  function of its inputs.
* External collaborators (`url.Parse`, the package-level `http.Client`,
  `json.Unmarshal` into the `Error` struct) are parameters bundled in
  `Env`; the caller-supplied response target is a pair of an initial
  value `t0` and a decoder `dec` standing for `json.Unmarshal` into it.
  `json.Unmarshal` into the `Error` struct is modelled all-or-nothing:
  either it fails (`none`, presets kept) or it yields a record of
  optional fields (absent fields keep their presets).
* Go byte strings are Lean `String`s; Go `error` values are their
  messages; `http.Header` and `url.Values` (both `map[string][]string`)
  are a function `String → List String` resp. an association list.
  Header-key canonicalization is dropped: `Header.Set`, `Header.Add` and
  `Header.Get` all canonicalize with the same function, so collisions of
  equal names behave identically with or without it.
-/

/-- Go `error` values, modelled by their message text. -/
abbrev GoError := String

/-- Observable events of one `Request.execute` run: middleware invocation
(with its 0-based position in the chain), the `client.Do` network call, the
`ioutil.ReadAll` and `Body.Close()` of the response body, and the three
outcome callbacks with their arguments. -/
inductive Event where
  | mwRun (i : Nat)
  | netCall
  | bodyReadAll
  | bodyClose
  | cbSuccess
  | cbHTTPError (status : Int) (message errorKind : String)
  | cbInternalError (e : GoError)
  deriving DecidableEq, Repr

/-- Go `http.Header` (`map[string][]string`) as a total function from
header name to its value list (missing key ↦ `[]`). -/
abbrev HeaderMap := String → List String

/-- Go `Header.Set(k, v)`: replace the whole value slice by `[v]`. -/
def HeaderMap.set (h : HeaderMap) (k v : String) : HeaderMap :=
  fun k' => if k' = k then [v] else h k'

/-- Go `Header.Add(k, v)`: append `v` to the existing value slice. -/
def HeaderMap.add (h : HeaderMap) (k v : String) : HeaderMap :=
  fun k' => if k' = k then h k ++ [v] else h k'

/-- Go `Header.Get(k)`: first value of the slice, `""` when absent. -/
def HeaderMap.get (h : HeaderMap) (k : String) : String :=
  match h k with
  | [] => ""
  | v :: _ => v

/-- Go `url.Values` (`map[string][]string`) as an association list; key
order models the irrelevant map iteration order, keys of a real map are
distinct (`Nodup` hypotheses where it matters). -/
abbrev Values := List (String × List String)

/-- Value slice of key `k` (Go `v[k]`, `[]` when absent). -/
def Values.get (v : Values) (k : String) : List String :=
  match v.find? (fun p => p.1 == k) with
  | none => []
  | some p => p.2

/-- Uppercase hexadecimal digit, as Go `"0123456789ABCDEF"[n]`. -/
def hexDigitUpper (n : Nat) : Char :=
  if n < 10 then Char.ofNat (48 + n) else Char.ofNat (55 + n)

/-- Percent-encoding `%XY` of one byte, as in Go net/url `escape`. -/
def percentEncodeByte (b : Nat) : List Char :=
  ['%', hexDigitUpper (b / 16), hexDigitUpper (b % 16)]

/-- UTF-8 bytes of one character; Go strings are byte strings, and
net/url escaping operates bytewise. -/
def utf8Bytes (c : Char) : List Nat :=
  let n := c.toNat
  if n < 128 then [n]
  else if n < 2048 then [192 + n / 64, 128 + n % 64]
  else if n < 65536 then [224 + n / 4096, 128 + n / 64 % 64, 128 + n % 64]
  else [240 + n / 262144, 128 + n / 4096 % 64, 128 + n / 64 % 64, 128 + n % 64]

/-- One character of Go `url.QueryEscape`: `shouldEscape(c,
encodeQueryComponent)` is false exactly for ASCII alphanumerics and
`-` `_` `.` `~`; a space becomes `+`; every other byte is
percent-encoded. -/
def queryEscapeChar (c : Char) : List Char :=
  if c = ' ' then ['+']
  else if c.isAlphanum || c = '-' || c = '_' || c = '.' || c = '~' then [c]
  else ((utf8Bytes c).map percentEncodeByte).flatten

/-- Go `url.QueryEscape`. -/
def queryEscape (s : String) : String :=
  ⟨(s.data.map queryEscapeChar).flatten⟩

/-- Lexicographic comparison of character lists by code point. -/
def charsLe : List Char → List Char → Bool
  | [], _ => true
  | _ :: _, [] => false
  | a :: as, b :: bs => if a < b then true else if b < a then false else charsLe as bs

/-- The string order used by Go `sort.Strings`: lexicographic by bytes,
which for UTF-8 strings coincides with lexicographic by code point. -/
def stringLe (a b : String) : Bool := charsLe a.data b.data

/-- Go `url.Values.Encode()`: sort the keys (`sort.Strings`, here
insertion sort — any sort agrees on the distinct keys of a map), then for
each key in order emit `key=value` per value, joined by `&`.  Go appends
`&` whenever the buffer is nonempty, which coincides with `intercalate`
because every part contains `=` and is nonempty. -/
def Values.encode (v : Values) : String :=
  let keys := List.insertionSort (fun a b : String => stringLe a b = true) (v.map Prod.fst)
  String.intercalate "&"
    ((keys.map (fun k =>
      (Values.get v k).map (fun w => queryEscape k ++ "=" ++ queryEscape w))).flatten)

/-- Go `Error` struct (jsonapi.go lines 11-16): JSON shape
`{error, status, message}` with Go field names `Error`, `Status`,
`Message`. -/
structure Error where
  Error : String
  Status : Int
  Message : String
  deriving DecidableEq, Repr

/-- Outcome of a successful `json.Unmarshal` of a body into the `Error`
struct: each field is either populated from the body (`some`) or absent
(`none`, so the preset survives). -/
structure ErrorFields where
  Error : Option String
  Status : Option Int
  Message : Option String

/-- The parts of Go `http.Request` this package touches: `Method`, `URL`
(kept as the successfully parsed URL string), `Header`, `Body` (the
serialized bytes wrapped by `ioutil.NopCloser`). -/
structure HttpRequest where
  method : String
  url : Option String
  header : HeaderMap
  body : Option String

/-- The parts of Go `http.Response` this package touches: `StatusCode`,
`Status` (the textual status), and the body stream, represented by the
outcome of reading it fully (`ioutil.ReadAll`). -/
structure HttpResponse where
  statusCode : Int
  status : String
  bodyRead : Except GoError String

/-- Go `type MiddlewareFunction func(r *http.Request) error`; the in-place
mutation is modelled by returning the updated request, an error aborts the
chain. -/
abbrev MiddlewareFunction := HttpRequest → Except GoError HttpRequest

/-- Go `JSONAPI` struct: base URL, static headers (`map[string]string`,
as an association list with distinct keys), middleware list. -/
structure JSONAPI where
  BaseURL : String
  Headers : List (String × String)
  middleware : List MiddlewareFunction

/-- Go `Request` struct: the owning `JSONAPI` and the `http.Request`
being built. -/
structure Request where
  api : JSONAPI
  request : HttpRequest

/-- A request payload (`interface{}` value), characterized by its
`json.Marshal` outcome. -/
structure Payload where
  marshal : Except GoError String

/-- External collaborators of the executor: `url.Parse` (the parsed URL
kept as a string), the package-level `http.Client`'s `Do`, and
`json.Unmarshal` into the `Error` struct. -/
structure Env where
  urlParse : String → Except GoError String
  clientDo : HttpRequest → Except GoError HttpResponse
  unmarshalError : String → Option ErrorFields

/-- Result of one `Request.execute` run: the Go return values
`(response, err)`, the final value of the caller-supplied response
target, and the event trace. -/
structure ExecResult (α : Type) where
  response : Option HttpResponse
  err : Option GoError
  target : α
  trace : List Event

/-- Go `func body(response)` (lines 215-219): `ioutil.ReadAll` then
`response.Body.Close()`; the close is unconditional, also on a read
error. -/
def body (response : HttpResponse) : Except GoError String × List Event :=
  (response.bodyRead, [Event.bodyReadAll, Event.bodyClose])

/-- Go `handleSuccess` (lines 180-197): read the body; a read error is an
internal error; a nonempty body is decoded into the target (decode error
→ internal error); otherwise the success callback fires with no
arguments and an empty body leaves the target `t0` unmodified. -/
def handleSuccess {α : Type} (response : HttpResponse) (t0 : α)
    (dec : String → Except GoError α) : α × List Event :=
  match (body response).1 with
  | .error err => (t0, (body response).2 ++ [Event.cbInternalError err])
  | .ok b =>
    if b.length ≠ 0 then
      match dec b with
      | .error err => (t0, (body response).2 ++ [Event.cbInternalError err])
      | .ok t => (t, (body response).2 ++ [Event.cbSuccess])
    else
      (t0, (body response).2 ++ [Event.cbSuccess])

/-- Go `handleHTTPError` (lines 199-213): read the body (read error →
internal error); preset `Status = response.StatusCode`,
`Message = string(body)`, `Error = response.Status`; `json.Unmarshal`
overrides whichever fields it populates, its error is ignored; invoke the
HTTP-error callback with `(Status, Message, Error)`. -/
def handleHTTPError (env : Env) (response : HttpResponse) : List Event :=
  match (body response).1 with
  | .error err => (body response).2 ++ [Event.cbInternalError err]
  | .ok b =>
    let e0 : Error := ⟨response.status, response.statusCode, b⟩
    let e1 : Error :=
      match env.unmarshalError b with
      | none => e0
      | some f => ⟨f.Error.getD e0.Error, f.Status.getD e0.Status, f.Message.getD e0.Message⟩
    (body response).2 ++ [Event.cbHTTPError e1.Status e1.Message e1.Error]

/-- Lines 91-96 of `execute`: classify the response by status code —
`StatusCode >= 300` goes to `handleHTTPError`, everything below to
`handleSuccess` (which yields the possibly-updated target). -/
def handleResponse {α : Type} (env : Env) (response : HttpResponse) (t0 : α)
    (dec : String → Except GoError α) : α × List Event :=
  if 300 ≤ response.statusCode then (t0, handleHTTPError env response)
  else handleSuccess response t0 dec

/-- Lines 74-76 of `execute`: `for name, value := range r.api.Headers {
r.request.Header.Add(name, value) }`. -/
def mergeHeaders (api : JSONAPI) (req : HttpRequest) : HttpRequest :=
  { req with header := api.Headers.foldl (fun h p => h.add p.1 p.2) req.header }

/-- Lines 78-83 of `execute`: run the middleware in list order; the first
error stops the chain (the error is returned, later middleware never
run); `i` numbers the events by chain position. -/
def runMiddleware : List MiddlewareFunction → HttpRequest → Nat →
    Except GoError HttpRequest × List Event
  | [], req, _ => (.ok req, [])
  | mw :: rest, req, i =>
    match mw req with
    | .error e => (.error e, [Event.mwRun i])
    | .ok req' =>
      ((runMiddleware rest req' (i + 1)).1,
        Event.mwRun i :: (runMiddleware rest req' (i + 1)).2)

/-- Lines 58-67 of `execute`: when a payload is present, `json.Marshal`
it; on success the bytes become the request body. -/
def serializeBody (requestBody : Option Payload) (req : HttpRequest) :
    Except GoError HttpRequest :=
  match requestBody with
  | none => .ok req
  | some p =>
    match p.marshal with
    | .error e => .error e
    | .ok bs => .ok { req with body := some bs }

/-- Line 53 of `execute`: the string handed to `url.Parse`,
`r.api.BaseURL + urlString + "?" + parameters.Encode()`. -/
def composedURL (api : JSONAPI) (urlString : String) (parameters : Values) : String :=
  api.BaseURL ++ urlString ++ "?" ++ Values.encode parameters

/-- Go `Request.execute` (lines 49-99).  Path by path:
* `url.Parse` failure: bare `return` — no callback fires, the error is
  the Go return value (lines 54-56);
* `json.Marshal` failure: internal-error callback, stop (lines 58-64);
  the `if err != nil` at lines 69-72 is unreachable (`err` is `nil` on
  every path reaching it) and is not modelled;
* header merge (lines 74-76), then middleware; a middleware error is a
  bare `return` — no callback fires (lines 78-83);
* `client.Do` failure: internal-error callback (lines 85-89);
* otherwise classify the response (lines 91-98); the Go `err` named
  return stays `nil` there and the response is returned. -/
def Request.execute {α : Type} (env : Env) (r : Request) (verb urlString : String)
    (parameters : Values) (requestBody : Option Payload) (t0 : α)
    (dec : String → Except GoError α) : ExecResult α :=
  match env.urlParse (composedURL r.api urlString parameters) with
  | .error e => ⟨none, some e, t0, []⟩
  | .ok u =>
    match serializeBody requestBody { r.request with method := verb, url := some u } with
    | .error e => ⟨none, some e, t0, [Event.cbInternalError e]⟩
    | .ok req3 =>
      match (runMiddleware r.api.middleware (mergeHeaders r.api req3) 0).1 with
      | .error e =>
        ⟨none, some e, t0, (runMiddleware r.api.middleware (mergeHeaders r.api req3) 0).2⟩
      | .ok req5 =>
        match env.clientDo req5 with
        | .error e =>
          ⟨none, some e, t0,
            (runMiddleware r.api.middleware (mergeHeaders r.api req3) 0).2 ++
              [Event.netCall, Event.cbInternalError e]⟩
        | .ok resp =>
          ⟨some resp, none, (handleResponse env resp t0 dec).1,
            (runMiddleware r.api.middleware (mergeHeaders r.api req3) 0).2 ++
              Event.netCall :: (handleResponse env resp t0 dec).2⟩

/-- Go `Request.SetHeader` (lines 44-47): `r.request.Header.Set(key,
value)`, returning the builder for chaining. -/
def Request.SetHeader (r : Request) (key value : String) : Request :=
  { r with request := { r.request with header := r.request.header.set key value } }

/-- Go `Request.Get` (lines 102-107): `execute` with verb `GET` and `nil`
request body. -/
def Request.Get {α : Type} (env : Env) (r : Request) (url : String) (parameters : Values)
    (t0 : α) (dec : String → Except GoError α) : ExecResult α :=
  r.execute env "GET" url parameters none t0 dec

/-- Go `Request.Put` (lines 110-115). -/
def Request.Put {α : Type} (env : Env) (r : Request) (url : String) (parameters : Values)
    (t0 : α) (dec : String → Except GoError α) (requestBody : Option Payload) : ExecResult α :=
  r.execute env "PUT" url parameters requestBody t0 dec

/-- Go `Request.Post` (lines 118-123). -/
def Request.Post {α : Type} (env : Env) (r : Request) (url : String) (parameters : Values)
    (t0 : α) (dec : String → Except GoError α) (requestBody : Option Payload) : ExecResult α :=
  r.execute env "POST" url parameters requestBody t0 dec

/-- Go `Request.Delete` (lines 126-131): verb `DELETE`, `nil` body. -/
def Request.Delete {α : Type} (env : Env) (r : Request) (url : String) (parameters : Values)
    (t0 : α) (dec : String → Except GoError α) : ExecResult α :=
  r.execute env "DELETE" url parameters none t0 dec

/-- Go `JSONAPI.R` (lines 133-142): fresh builder bound to this config,
holding `http.NewRequest("GET", "", nil)` — method `GET`, empty URL,
empty header map, no body. -/
def JSONAPI.R (jsonAPI : JSONAPI) : Request :=
  { api := jsonAPI
    request := { method := "GET", url := some "", header := fun _ => [], body := none } }

/-- Go `JSONAPI.Use` (lines 144-146): append middleware, order
preserved. -/
def JSONAPI.Use (jsonAPI : JSONAPI) (mw : List MiddlewareFunction) : JSONAPI :=
  { jsonAPI with middleware := jsonAPI.middleware ++ mw }

/-- Go `JSONAPI.Get` (lines 149-154): fresh builder, verb `GET`, `nil`
body. -/
def JSONAPI.Get {α : Type} (env : Env) (jsonAPI : JSONAPI) (url : String)
    (parameters : Values) (t0 : α) (dec : String → Except GoError α) : ExecResult α :=
  (jsonAPI.R).execute env "GET" url parameters none t0 dec

/-- Go `JSONAPI.Put` (lines 157-162). -/
def JSONAPI.Put {α : Type} (env : Env) (jsonAPI : JSONAPI) (url : String)
    (parameters : Values) (requestBody : Option Payload) (t0 : α)
    (dec : String → Except GoError α) : ExecResult α :=
  (jsonAPI.R).execute env "PUT" url parameters requestBody t0 dec

/-- Go `JSONAPI.Post` (lines 165-170). -/
def JSONAPI.Post {α : Type} (env : Env) (jsonAPI : JSONAPI) (url : String)
    (parameters : Values) (requestBody : Option Payload) (t0 : α)
    (dec : String → Except GoError α) : ExecResult α :=
  (jsonAPI.R).execute env "POST" url parameters requestBody t0 dec

/-- Go `JSONAPI.Delete` (lines 173-178). -/
def JSONAPI.Delete {α : Type} (env : Env) (jsonAPI : JSONAPI) (url : String)
    (parameters : Values) (t0 : α) (dec : String → Except GoError α) : ExecResult α :=
  (jsonAPI.R).execute env "DELETE" url parameters none t0 dec

/-- True exactly on the three outcome-callback events. -/
def Event.isCallback : Event → Bool
  | .cbSuccess => true
  | .cbHTTPError _ _ _ => true
  | .cbInternalError _ => true
  | _ => false

/-! ### Trace-shape lemmas for the pipeline stages -/

/-- Every event emitted by the middleware loop is a `mwRun`. -/
theorem runMiddleware_mem_mwRun (mws : List MiddlewareFunction) (req : HttpRequest) (i : Nat) :
    ∀ e ∈ (runMiddleware mws req i).2, ∃ j, e = Event.mwRun j := by
  induction mws generalizing req i with
  | nil => intro e he; simp [runMiddleware] at he
  | cons mw rest ih =>
    intro e he
    cases hmw : mw req with
    | error err =>
      simp [runMiddleware, hmw] at he
      exact ⟨i, he⟩
    | ok req' =>
      simp [runMiddleware, hmw] at he
      rcases he with h | h
      · exact ⟨i, h⟩
      · exact ih req' (i + 1) e h

/-- A successful chain of `n` middleware emits `mwRun i, …, mwRun (i+n-1)`
in order. -/
theorem runMiddleware_ok_events (mws : List MiddlewareFunction) (req req' : HttpRequest)
    (i : Nat) (h : (runMiddleware mws req i).1 = .ok req') :
    (runMiddleware mws req i).2 = (List.range' i mws.length).map Event.mwRun := by
  induction mws generalizing req i with
  | nil => simp [runMiddleware]
  | cons mw rest ih =>
    cases hmw : mw req with
    | error err => simp [runMiddleware, hmw] at h
    | ok r2 =>
      simp only [runMiddleware, hmw] at h ⊢
      rw [List.length_cons, List.range'_succ, List.map_cons, ih r2 (i + 1) h]

/-- Splitting the middleware list at a point the chain reaches: the prefix
runs first, then the rest on the request the prefix produced, with
positions shifted by the prefix length. -/
theorem runMiddleware_append (pre rest : List MiddlewareFunction) (req req' : HttpRequest)
    (i : Nat) (h : (runMiddleware pre req i).1 = .ok req') :
    runMiddleware (pre ++ rest) req i =
      ((runMiddleware rest req' (i + pre.length)).1,
        (runMiddleware pre req i).2 ++ (runMiddleware rest req' (i + pre.length)).2) := by
  induction pre generalizing req i with
  | nil =>
    simp only [runMiddleware] at h
    cases h
    simp [runMiddleware]
  | cons mw pre' ih =>
    cases hmw : mw req with
    | error err => simp [runMiddleware, hmw] at h
    | ok r2 =>
      simp only [runMiddleware, hmw] at h
      have hx : i + 1 + pre'.length = i + (pre'.length + 1) := by omega
      simp only [List.cons_append, runMiddleware, hmw, List.length_cons]
      simp only [List.append_eq]
      rw [ih r2 (i + 1) h, hx]

/-- The middleware loop never invokes a callback. -/
theorem countP_isCallback_runMiddleware (mws : List MiddlewareFunction) (req : HttpRequest)
    (i : Nat) :
    ((runMiddleware mws req i).2).countP (fun e => e.isCallback) = 0 := by
  rw [List.countP_eq_zero]
  intro e he
  obtain ⟨j, rfl⟩ := runMiddleware_mem_mwRun mws req i e he
  simp [Event.isCallback]

/-- The middleware loop never dispatches over the network. -/
theorem netCall_not_mem_runMiddleware (mws : List MiddlewareFunction) (req : HttpRequest)
    (i : Nat) : Event.netCall ∉ (runMiddleware mws req i).2 := by
  intro h
  obtain ⟨j, hj⟩ := runMiddleware_mem_mwRun mws req i _ h
  simp at hj

/-- `handleHTTPError` reads and closes the body and then fires exactly one
callback: internal-error on a body-read failure, HTTP-error otherwise. -/
theorem handleHTTPError_shape (env : Env) (resp : HttpResponse) :
    ∃ x, handleHTTPError env resp = [Event.bodyReadAll, Event.bodyClose, x] ∧
      ((∃ e, x = Event.cbInternalError e) ∨ ∃ s m k, x = Event.cbHTTPError s m k) := by
  cases hb : resp.bodyRead with
  | error err =>
    exact ⟨Event.cbInternalError err, by simp [handleHTTPError, body, hb], Or.inl ⟨err, rfl⟩⟩
  | ok b =>
    cases hu : env.unmarshalError b with
    | none =>
      refine ⟨Event.cbHTTPError resp.statusCode b resp.status, ?_, Or.inr ⟨_, _, _, rfl⟩⟩
      simp [handleHTTPError, body, hb, hu]
    | some f =>
      refine ⟨Event.cbHTTPError (f.Status.getD resp.statusCode) (f.Message.getD b)
        (f.Error.getD resp.status), ?_, Or.inr ⟨_, _, _, rfl⟩⟩
      simp [handleHTTPError, body, hb, hu]

/-- `handleSuccess` reads and closes the body and then fires exactly one
callback: success, or internal-error on a read or decode failure. -/
theorem handleSuccess_shape {α : Type} (resp : HttpResponse) (t0 : α)
    (dec : String → Except GoError α) :
    ∃ x, (handleSuccess resp t0 dec).2 = [Event.bodyReadAll, Event.bodyClose, x] ∧
      (x = Event.cbSuccess ∨ ∃ e, x = Event.cbInternalError e) := by
  cases hb : resp.bodyRead with
  | error err =>
    exact ⟨Event.cbInternalError err, by simp [handleSuccess, body, hb], Or.inr ⟨err, rfl⟩⟩
  | ok b =>
    by_cases hlen : b.length ≠ 0
    · cases hd : dec b with
      | error err =>
        exact ⟨Event.cbInternalError err, by simp [handleSuccess, body, hb, hlen, hd],
          Or.inr ⟨err, rfl⟩⟩
      | ok t =>
        exact ⟨Event.cbSuccess, by simp [handleSuccess, body, hb, hlen, hd], Or.inl rfl⟩
    · exact ⟨Event.cbSuccess, by simp [handleSuccess, body, hb, hlen], Or.inl rfl⟩

/-- Response handling reads and closes the body and then fires exactly one
callback. -/
theorem handleResponse_shape {α : Type} (env : Env) (resp : HttpResponse) (t0 : α)
    (dec : String → Except GoError α) :
    ∃ x, (handleResponse env resp t0 dec).2 = [Event.bodyReadAll, Event.bodyClose, x] ∧
      x.isCallback = true := by
  unfold handleResponse
  by_cases h300 : 300 ≤ resp.statusCode
  · obtain ⟨x, hx, hcase⟩ := handleHTTPError_shape env resp
    refine ⟨x, by simp [h300, hx], ?_⟩
    rcases hcase with ⟨e, rfl⟩ | ⟨s, m, k, rfl⟩ <;> simp [Event.isCallback]
  · obtain ⟨x, hx, hcase⟩ := handleSuccess_shape resp t0 dec
    refine ⟨x, by simp [h300, hx], ?_⟩
    rcases hcase with rfl | ⟨e, rfl⟩ <;> simp [Event.isCallback]

/-- A list with one marked occurrence splits uniquely around it. -/
theorem append_cons_eq_unique {α : Type} {a : α} {m₁ m₂ : List α} (l₁ l₂ : List α)
    (h : m₁ ++ a :: m₂ = l₁ ++ a :: l₂) (h1 : a ∉ m₁) (h2 : a ∉ m₂) :
    m₁ = l₁ ∧ m₂ = l₂ := by
  induction m₁ generalizing l₁ with
  | nil =>
    cases l₁ with
    | nil => simpa using h
    | cons b l₁' =>
      simp only [List.nil_append, List.cons_append, List.cons.injEq] at h
      obtain ⟨rfl, hm⟩ := h
      exact absurd (hm ▸ List.mem_append_right l₁' (List.mem_cons_self _ _)) h2
  | cons c m₁' ih =>
    cases l₁ with
    | nil =>
      simp only [List.cons_append, List.nil_append, List.cons.injEq] at h
      exact absurd (h.1 ▸ List.mem_cons_self _ _) h1
    | cons b l₁' =>
      simp only [List.cons_append, List.cons.injEq] at h
      obtain ⟨rfl, h'⟩ := h
      have hnm : a ∉ m₁' := fun hmem => h1 (List.mem_cons_of_mem _ hmem)
      obtain ⟨he, he2⟩ := ih l₁' h' hnm
      exact ⟨by rw [he], he2⟩

/-! ### Step equations: the value of `execute` on each of its five paths -/

/-- On a `url.Parse` failure, `execute` returns the error with an empty
trace: no callback, no network call (lines 54-56 are a bare return). -/
theorem execute_parse_error {α : Type} (env : Env) (r : Request) (verb urlString : String)
    (parameters : Values) (requestBody : Option Payload) (t0 : α)
    (dec : String → Except GoError α) (e : GoError)
    (hp : env.urlParse (composedURL r.api urlString parameters) = .error e) :
    r.execute env verb urlString parameters requestBody t0 dec = ⟨none, some e, t0, []⟩ := by
  unfold Request.execute
  rw [hp]

/-- On a `json.Marshal` failure, `execute` fires the internal-error
callback and stops: no network call. -/
theorem execute_marshal_error {α : Type} (env : Env) (r : Request) (verb urlString : String)
    (parameters : Values) (requestBody : Option Payload) (t0 : α)
    (dec : String → Except GoError α) (u : String) (e : GoError)
    (hp : env.urlParse (composedURL r.api urlString parameters) = .ok u)
    (hs : serializeBody requestBody ⟨verb, some u, r.request.header, r.request.body⟩ =
      .error e) :
    r.execute env verb urlString parameters requestBody t0 dec =
      ⟨none, some e, t0, [Event.cbInternalError e]⟩ := by
  unfold Request.execute
  simp only [hp, hs]

/-- On a middleware failure, `execute` returns that middleware's error;
the trace holds only the middleware runs up to and including the failing
one: no callback, no network call (lines 80-82 are a bare return). -/
theorem execute_middleware_error {α : Type} (env : Env) (r : Request) (verb urlString : String)
    (parameters : Values) (requestBody : Option Payload) (t0 : α)
    (dec : String → Except GoError α) (u : String) (req3 : HttpRequest) (e : GoError)
    (hp : env.urlParse (composedURL r.api urlString parameters) = .ok u)
    (hs : serializeBody requestBody ⟨verb, some u, r.request.header, r.request.body⟩ = .ok req3)
    (hm : (runMiddleware r.api.middleware (mergeHeaders r.api req3) 0).1 = .error e) :
    r.execute env verb urlString parameters requestBody t0 dec =
      ⟨none, some e, t0, (runMiddleware r.api.middleware (mergeHeaders r.api req3) 0).2⟩ := by
  unfold Request.execute
  simp only [hp, hs, hm]

/-- On a transport failure, `execute` fires the internal-error callback
with the transport error, after the network call. -/
theorem execute_transport_error {α : Type} (env : Env) (r : Request) (verb urlString : String)
    (parameters : Values) (requestBody : Option Payload) (t0 : α)
    (dec : String → Except GoError α) (u : String) (req3 req5 : HttpRequest) (e : GoError)
    (hp : env.urlParse (composedURL r.api urlString parameters) = .ok u)
    (hs : serializeBody requestBody ⟨verb, some u, r.request.header, r.request.body⟩ = .ok req3)
    (hm : (runMiddleware r.api.middleware (mergeHeaders r.api req3) 0).1 = .ok req5)
    (hd : env.clientDo req5 = .error e) :
    r.execute env verb urlString parameters requestBody t0 dec =
      ⟨none, some e, t0, (runMiddleware r.api.middleware (mergeHeaders r.api req3) 0).2 ++
        [Event.netCall, Event.cbInternalError e]⟩ := by
  unfold Request.execute
  simp only [hp, hs, hm, hd]

/-- When the transport delivers a response, `execute` hands it to the
status-code classifier and returns it with a `nil` Go error. -/
theorem execute_response {α : Type} (env : Env) (r : Request) (verb urlString : String)
    (parameters : Values) (requestBody : Option Payload) (t0 : α)
    (dec : String → Except GoError α) (u : String) (req3 req5 : HttpRequest)
    (resp : HttpResponse)
    (hp : env.urlParse (composedURL r.api urlString parameters) = .ok u)
    (hs : serializeBody requestBody ⟨verb, some u, r.request.header, r.request.body⟩ = .ok req3)
    (hm : (runMiddleware r.api.middleware (mergeHeaders r.api req3) 0).1 = .ok req5)
    (hd : env.clientDo req5 = .ok resp) :
    r.execute env verb urlString parameters requestBody t0 dec =
      ⟨some resp, none, (handleResponse env resp t0 dec).1,
        (runMiddleware r.api.middleware (mergeHeaders r.api req3) 0).2 ++
          Event.netCall :: (handleResponse env resp t0 dec).2⟩ := by
  unfold Request.execute
  simp only [hp, hs, hm, hd]

/-- C1 (amended): every `execute` run invokes at most one outcome
callback; exactly one fires on every path except URL-parse failure and
middleware failure, where none fires, the error is instead returned to
the caller as the Go error value, and no network call is made. -/
theorem execute_at_most_one_callback {α : Type} (env : Env) (r : Request)
    (verb urlString : String) (parameters : Values) (requestBody : Option Payload)
    (t0 : α) (dec : String → Except GoError α) :
    (r.execute env verb urlString parameters requestBody t0 dec).trace.countP
        (fun e => e.isCallback) = 1 ∨
    ((r.execute env verb urlString parameters requestBody t0 dec).trace.countP
        (fun e => e.isCallback) = 0 ∧
      (r.execute env verb urlString parameters requestBody t0 dec).err.isSome = true ∧
      Event.netCall ∉ (r.execute env verb urlString parameters requestBody t0 dec).trace) := by
  cases hp : env.urlParse (composedURL r.api urlString parameters) with
  | error e =>
    rw [execute_parse_error env r verb urlString parameters requestBody t0 dec e hp]
    right
    simp
  | ok u =>
    cases hs : serializeBody requestBody ⟨verb, some u, r.request.header, r.request.body⟩ with
    | error e =>
      rw [execute_marshal_error env r verb urlString parameters requestBody t0 dec u e hp hs]
      left
      simp [Event.isCallback]
    | ok req3 =>
      cases hm : (runMiddleware r.api.middleware (mergeHeaders r.api req3) 0).1 with
      | error e =>
        rw [execute_middleware_error env r verb urlString parameters requestBody t0 dec
          u req3 e hp hs hm]
        right
        exact ⟨countP_isCallback_runMiddleware _ _ _, by simp,
          netCall_not_mem_runMiddleware _ _ _⟩
      | ok req5 =>
        cases hd : env.clientDo req5 with
        | error e =>
          rw [execute_transport_error env r verb urlString parameters requestBody t0 dec
            u req3 req5 e hp hs hm hd]
          left
          rw [List.countP_append, countP_isCallback_runMiddleware]
          simp [Event.isCallback]
        | ok resp =>
          rw [execute_response env r verb urlString parameters requestBody t0 dec
            u req3 req5 resp hp hs hm hd]
          left
          obtain ⟨x, hx, hcb⟩ := handleResponse_shape env resp t0 dec
          rw [hx, List.countP_append, countP_isCallback_runMiddleware]
          simp [List.countP_cons, hcb, show Event.bodyClose.isCallback = false from rfl,
            show Event.bodyReadAll.isCallback = false from rfl,
            show Event.netCall.isCallback = false from rfl]

/-- C1 counterexample: with a base URL `url.Parse` rejects, `execute`
returns without invoking any of the three callbacks — "exactly one
callback fires per request" fails on the URL-parse-failure path. -/
theorem execute_url_parse_failure_no_callback :
    ((Request.execute ⟨fun _ => .error "parse error", fun _ => .error "unused",
        fun _ => none⟩
      (JSONAPI.R ⟨":", [], []⟩) "GET" "" [] none (0 : Nat) (fun _ => .error "unused")).trace.countP
        (fun e => e.isCallback)) = 0 := rfl

/-- C2 (amended): `execute` runs the middleware in registration order
(the order `Use` appends them); when the middleware at position
`pre.length` is the first to fail, the middleware before it ran in order,
the ones after it never run, no network call is made, and the failing
middleware's error is returned to the caller — no callback (in
particular not the internal-error callback) is invoked. -/
theorem execute_middleware_order_and_abort {α : Type} (env : Env) (r : Request)
    (verb urlString : String) (parameters : Values) (t0 : α)
    (dec : String → Except GoError α) (u : String) (pre post : List MiddlewareFunction)
    (f : MiddlewareFunction) (e : GoError) (req' : HttpRequest)
    (hp : env.urlParse (composedURL r.api urlString parameters) = .ok u)
    (hmw : r.api.middleware = pre ++ f :: post)
    (hpre : (runMiddleware pre
      (mergeHeaders r.api ⟨verb, some u, r.request.header, r.request.body⟩) 0).1 = .ok req')
    (hf : f req' = .error e) :
    r.execute env verb urlString parameters none t0 dec =
      ⟨none, some e, t0, (List.range (pre.length + 1)).map Event.mwRun⟩ ∧
    Event.netCall ∉ (r.execute env verb urlString parameters none t0 dec).trace ∧
    (r.execute env verb urlString parameters none t0 dec).trace.countP
      (fun ev => ev.isCallback) = 0 ∧
    ∀ (api : JSONAPI) (mws : List MiddlewareFunction),
      (api.Use mws).middleware = api.middleware ++ mws := by
  have hm1 : runMiddleware r.api.middleware
      (mergeHeaders r.api ⟨verb, some u, r.request.header, r.request.body⟩) 0 =
      (.error e, (List.range (pre.length + 1)).map Event.mwRun) := by
    rw [hmw, runMiddleware_append pre (f :: post) _ req' 0 hpre,
      runMiddleware_ok_events pre _ req' 0 hpre]
    simp [runMiddleware, hf, List.range_succ, List.range_eq_range']
  have hexec2 : r.execute env verb urlString parameters none t0 dec =
      ⟨none, some e, t0, (List.range (pre.length + 1)).map Event.mwRun⟩ := by
    rw [execute_middleware_error env r verb urlString parameters none t0 dec u
      ⟨verb, some u, r.request.header, r.request.body⟩ e hp rfl (by rw [hm1]), hm1]
  refine ⟨hexec2, ?_, ?_, fun api mws => rfl⟩
  · rw [hexec2]
    simp
  · rw [hexec2]
    rw [List.countP_eq_zero]
    intro a ha
    simp only [List.mem_map] at ha
    obtain ⟨j, _, rfl⟩ := ha
    simp [Event.isCallback]

/-- C2 witness: two registered middleware, the second fails — the first
runs, then the second, nothing else happens and the error is returned. -/
theorem execute_middleware_order_and_abort_witness :
    Request.execute ⟨fun s => .ok s, fun _ => .error "unused", fun _ => none⟩
      (JSONAPI.R ⟨"b", [], [fun rq => .ok rq, fun _ => .error "mw boom"]⟩) "GET" "/p" []
      none (0 : Nat) (fun _ => .error "unused") =
      ⟨none, some "mw boom", 0, [Event.mwRun 0, Event.mwRun 1]⟩ :=
  (execute_middleware_order_and_abort ⟨fun s => .ok s, fun _ => .error "unused", fun _ => none⟩
    (JSONAPI.R ⟨"b", [], [fun rq => .ok rq, fun _ => .error "mw boom"]⟩) "GET" "/p" []
    (0 : Nat) (fun _ => .error "unused") "b/p?" [fun rq => .ok rq] []
    (fun _ => .error "mw boom") "mw boom"
    ⟨"GET", some "b/p?", fun _ => [], none⟩ rfl rfl rfl rfl).1

/-- C2 counterexample: with two registered middleware whose first fails,
the run stops after `mwRun 0` — the second middleware never runs and the
trace contains no callback at all, so the internal-error callback is not
invoked with the middleware's error as the claim states. -/
theorem execute_middleware_failure_no_internal_callback :
    Request.execute ⟨fun s => .ok s, fun _ => .error "unused", fun _ => none⟩
      (JSONAPI.R ⟨"b", [], [fun _ => .error "mw boom", fun rq => .ok rq]⟩) "GET" "/p" []
      none (0 : Nat) (fun _ => .error "unused") =
      ⟨none, some "mw boom", 0, [Event.mwRun 0]⟩ := rfl

/-- C3 (amended): on a name collision the client-level static header is
added after the builder-level header rather than overwriting it: the
merged request carries both values, the builder-level one first, and
`Header.Get` still yields the builder-level value. -/
theorem mergeHeaders_appends_client_header (api : JSONAPI) (r : Request)
    (k vb vc : String) (hc : api.Headers = [(k, vc)]) :
    (mergeHeaders api ((r.SetHeader k vb).request)).header k = [vb, vc] ∧
    HeaderMap.get ((mergeHeaders api ((r.SetHeader k vb).request)).header) k = vb := by
  constructor
  · simp [mergeHeaders, hc, Request.SetHeader, HeaderMap.add, HeaderMap.set]
  · simp [mergeHeaders, hc, Request.SetHeader, HeaderMap.add, HeaderMap.set, HeaderMap.get]

/-- C3 witness: concrete collision on key `X-Token`. -/
theorem mergeHeaders_appends_client_header_witness :
    (mergeHeaders ⟨"b", [("X-Token", "client")], []⟩
      (((JSONAPI.R ⟨"b", [("X-Token", "client")], []⟩).SetHeader "X-Token" "builder").request)).header
      "X-Token" = ["builder", "client"] :=
  (mergeHeaders_appends_client_header ⟨"b", [("X-Token", "client")], []⟩
    (JSONAPI.R ⟨"b", [("X-Token", "client")], []⟩) "X-Token" "builder" "client" rfl).1

/-- C3 counterexample: the claim says the merged request carries the
client-level value (overwrite); in fact `Header.Get` on the merged
request returns the builder-level value, and both values are present. -/
theorem client_header_does_not_overwrite :
    HeaderMap.get ((mergeHeaders ⟨"b", [("X-Token", "client")], []⟩
      (((JSONAPI.R ⟨"b", [("X-Token", "client")], []⟩).SetHeader "X-Token"
        "builder").request)).header) "X-Token" = "builder" := by decide

/-- C4: on an HTTP-error response whose body was read but fails to decode
as the `Error` JSON shape, the HTTP-error callback receives
`(numeric status code, raw body text, textual status)` in that order, and
the internal-error callback is never invoked on this path. -/
theorem handleHTTPError_fallback (env : Env) (resp : HttpResponse) (b : String)
    (hb : resp.bodyRead = .ok b) (hdec : env.unmarshalError b = none) :
    handleHTTPError env resp =
      [Event.bodyReadAll, Event.bodyClose,
        Event.cbHTTPError resp.statusCode b resp.status] ∧
    ∀ e, Event.cbInternalError e ∉ handleHTTPError env resp := by
  have h1 : handleHTTPError env resp =
      [Event.bodyReadAll, Event.bodyClose,
        Event.cbHTTPError resp.statusCode b resp.status] := by
    simp [handleHTTPError, body, hb, hdec]
  refine ⟨h1, fun e hmem => ?_⟩
  rw [h1] at hmem
  simp at hmem

/-- C4 witness: a 500 response with non-JSON body `boom` fires the
HTTP-error callback with `(500, "boom", "500 Internal Server Error")`. -/
theorem handleHTTPError_fallback_witness :
    handleHTTPError ⟨fun s => .ok s, fun _ => .error "unused", fun _ => none⟩
      ⟨500, "500 Internal Server Error", .ok "boom"⟩ =
      [Event.bodyReadAll, Event.bodyClose,
        Event.cbHTTPError 500 "boom" "500 Internal Server Error"] :=
  (handleHTTPError_fallback ⟨fun s => .ok s, fun _ => .error "unused", fun _ => none⟩
    ⟨500, "500 Internal Server Error", .ok "boom"⟩ "boom" rfl rfl).1

/-- C5: response classification is exactly by status code — status ≥ 300
goes to the HTTP-error handler and can never fire the success callback;
status < 300 goes to the success handler and can never fire the
HTTP-error callback. -/
theorem handleResponse_classifies_by_status {α : Type} (env : Env) (resp : HttpResponse)
    (t0 : α) (dec : String → Except GoError α) :
    (300 ≤ resp.statusCode →
      handleResponse env resp t0 dec = (t0, handleHTTPError env resp) ∧
      Event.cbSuccess ∉ (handleResponse env resp t0 dec).2) ∧
    (resp.statusCode < 300 →
      handleResponse env resp t0 dec = handleSuccess resp t0 dec ∧
      ∀ s m k, Event.cbHTTPError s m k ∉ (handleResponse env resp t0 dec).2) := by
  constructor
  · intro h
    have he : handleResponse env resp t0 dec = (t0, handleHTTPError env resp) := by
      simp [handleResponse, h]
    refine ⟨he, ?_⟩
    rw [he]
    obtain ⟨x, hx, hcase⟩ := handleHTTPError_shape env resp
    simp only [hx]
    intro hmem
    simp at hmem
    rcases hcase with ⟨e, rfl⟩ | ⟨s, m, k, rfl⟩ <;> simp at hmem
  · intro h
    have he : handleResponse env resp t0 dec = handleSuccess resp t0 dec := by
      simp only [handleResponse]
      rw [if_neg (not_le.mpr h)]
    refine ⟨he, fun s m k => ?_⟩
    rw [he]
    obtain ⟨x, hx, hcase⟩ := handleSuccess_shape resp t0 dec
    simp only [hx]
    intro hmem
    simp at hmem
    rcases hcase with rfl | ⟨e, rfl⟩ <;> simp at hmem

/-- C5 witness: a 404 response goes to the HTTP-error handler. -/
theorem handleResponse_classifies_by_status_witness :
    handleResponse ⟨fun s => .ok s, fun _ => .error "unused", fun _ => none⟩
      ⟨404, "404 Not Found", .ok ""⟩ (0 : Nat) (fun _ => .error "unused") =
      (0, handleHTTPError ⟨fun s => .ok s, fun _ => .error "unused", fun _ => none⟩
        ⟨404, "404 Not Found", .ok ""⟩) :=
  ((handleResponse_classifies_by_status ⟨fun s => .ok s, fun _ => .error "unused",
    fun _ => none⟩ ⟨404, "404 Not Found", .ok ""⟩ (0 : Nat)
    (fun _ => .error "unused")).1 (by decide)).1

/-- C6: a `json.Marshal` failure of the payload fires the internal-error
callback with the serialization error, execution stops, and the transport
is never invoked. -/
theorem execute_serialization_failure {α : Type} (env : Env) (r : Request)
    (verb urlString : String) (parameters : Values) (p : Payload) (t0 : α)
    (dec : String → Except GoError α) (u : String) (e : GoError)
    (hp : env.urlParse (composedURL r.api urlString parameters) = .ok u)
    (hmar : p.marshal = .error e) :
    r.execute env verb urlString parameters (some p) t0 dec =
      ⟨none, some e, t0, [Event.cbInternalError e]⟩ ∧
    Event.netCall ∉ (r.execute env verb urlString parameters (some p) t0 dec).trace := by
  have hs : serializeBody (some p) ⟨verb, some u, r.request.header, r.request.body⟩ =
      .error e := by
    simp [serializeBody, hmar]
  have h1 := execute_marshal_error env r verb urlString parameters (some p) t0 dec u e hp hs
  refine ⟨h1, ?_⟩
  rw [h1]
  simp

/-- C6 witness: a payload whose serialization fails produces exactly one
internal-error callback and no network call. -/
theorem execute_serialization_failure_witness :
    Request.execute ⟨fun s => .ok s, fun _ => .error "unused", fun _ => none⟩
      (JSONAPI.R ⟨"b", [], []⟩) "POST" "/p" [] (some ⟨.error "marshal boom"⟩) (0 : Nat)
      (fun _ => .error "unused") =
      ⟨none, some "marshal boom", 0, [Event.cbInternalError "marshal boom"]⟩ :=
  (execute_serialization_failure ⟨fun s => .ok s, fun _ => .error "unused", fun _ => none⟩
    (JSONAPI.R ⟨"b", [], []⟩) "POST" "/p" [] ⟨.error "marshal boom"⟩ (0 : Nat)
    (fun _ => .error "unused") "b/p?" "marshal boom" rfl rfl).1

/-- C7: on a success response whose body was read — a nonempty body is
decoded into the target (success callback if it decodes, internal-error
callback and no success if not); an empty body fires the success callback
with the target left unmodified; the success callback carries no
arguments. -/
theorem handleSuccess_decodes_or_reports {α : Type} (resp : HttpResponse) (t0 : α)
    (dec : String → Except GoError α) (b : String) (hb : resp.bodyRead = .ok b) :
    (b.length ≠ 0 → ∀ e, dec b = .error e →
      handleSuccess resp t0 dec =
        (t0, [Event.bodyReadAll, Event.bodyClose, Event.cbInternalError e])) ∧
    (b.length ≠ 0 → ∀ t, dec b = .ok t →
      handleSuccess resp t0 dec = (t, [Event.bodyReadAll, Event.bodyClose, Event.cbSuccess])) ∧
    (b.length = 0 →
      handleSuccess resp t0 dec =
        (t0, [Event.bodyReadAll, Event.bodyClose, Event.cbSuccess])) := by
  refine ⟨?_, ?_, ?_⟩
  · intro hlen e hd
    simp [handleSuccess, body, hb, hlen, hd]
  · intro hlen t hd
    simp [handleSuccess, body, hb, hlen, hd]
  · intro hlen
    simp [handleSuccess, body, hb, hlen]

/-- C7 witness: a 200 response with an empty body fires the success
callback and leaves the target at its initial value. -/
theorem handleSuccess_decodes_or_reports_witness :
    handleSuccess ⟨200, "200 OK", .ok ""⟩ (7 : Nat) (fun _ => .error "unused") =
      (7, [Event.bodyReadAll, Event.bodyClose, Event.cbSuccess]) :=
  (handleSuccess_decodes_or_reports ⟨200, "200 OK", .ok ""⟩ 7 (fun _ => .error "unused")
    "" rfl).2.2 rfl

/-- Response handling never dispatches over the network. -/
theorem netCall_not_mem_handleResponse {α : Type} (env : Env) (resp : HttpResponse)
    (t0 : α) (dec : String → Except GoError α) :
    Event.netCall ∉ (handleResponse env resp t0 dec).2 := by
  obtain ⟨x, hx, hcb⟩ := handleResponse_shape env resp t0 dec
  rw [hx]
  intro hmem
  simp at hmem
  rw [← hmem] at hcb
  simp [Event.isCallback] at hcb

/-- C9: wherever the trace of an `execute` run shows the network call,
what follows is either the transport failing with no response returned,
or — for every response the transport delivers, whatever the outcome —
the response body being fully read and then closed at once. -/
theorem execute_body_read_and_closed {α : Type} (env : Env) (r : Request)
    (verb urlString : String) (parameters : Values) (requestBody : Option Payload)
    (t0 : α) (dec : String → Except GoError α) (pre post : List Event)
    (htr : (r.execute env verb urlString parameters requestBody t0 dec).trace =
      pre ++ Event.netCall :: post) :
    ((∃ e, post = [Event.cbInternalError e]) ∧
      (r.execute env verb urlString parameters requestBody t0 dec).response = none) ∨
    ∃ rest, post = Event.bodyReadAll :: Event.bodyClose :: rest := by
  have hmem : Event.netCall ∈
      (r.execute env verb urlString parameters requestBody t0 dec).trace := by
    rw [htr]
    simp
  cases hp : env.urlParse (composedURL r.api urlString parameters) with
  | error e =>
    rw [execute_parse_error env r verb urlString parameters requestBody t0 dec e hp] at hmem
    simp at hmem
  | ok u =>
    cases hs : serializeBody requestBody ⟨verb, some u, r.request.header, r.request.body⟩ with
    | error e =>
      rw [execute_marshal_error env r verb urlString parameters requestBody t0 dec
        u e hp hs] at hmem
      simp at hmem
    | ok req3 =>
      cases hm : (runMiddleware r.api.middleware (mergeHeaders r.api req3) 0).1 with
      | error e =>
        rw [execute_middleware_error env r verb urlString parameters requestBody t0 dec
          u req3 e hp hs hm] at hmem
        simp at hmem
        exact absurd hmem (netCall_not_mem_runMiddleware _ _ _)
      | ok req5 =>
        cases hd : env.clientDo req5 with
        | error e =>
          rw [execute_transport_error env r verb urlString parameters requestBody t0 dec
            u req3 req5 e hp hs hm hd] at htr
          rw [execute_transport_error env r verb urlString parameters requestBody t0 dec
            u req3 req5 e hp hs hm hd]
          have htr2 : (runMiddleware r.api.middleware (mergeHeaders r.api req3) 0).2 ++
              Event.netCall :: [Event.cbInternalError e] = pre ++ Event.netCall :: post := by
            simpa using htr
          obtain ⟨h1, h2⟩ := append_cons_eq_unique pre post htr2
            (netCall_not_mem_runMiddleware _ _ _) (by simp)
          exact Or.inl ⟨⟨e, h2.symm⟩, rfl⟩
        | ok resp =>
          rw [execute_response env r verb urlString parameters requestBody t0 dec
            u req3 req5 resp hp hs hm hd] at htr
          have htr2 : (runMiddleware r.api.middleware (mergeHeaders r.api req3) 0).2 ++
              Event.netCall :: (handleResponse env resp t0 dec).2 =
              pre ++ Event.netCall :: post := by
            simpa using htr
          obtain ⟨h1, h2⟩ := append_cons_eq_unique pre post htr2
            (netCall_not_mem_runMiddleware _ _ _)
            (netCall_not_mem_handleResponse env resp t0 dec)
          obtain ⟨x, hx, _⟩ := handleResponse_shape env resp t0 dec
          right
          exact ⟨[x], by rw [← h2, hx]⟩

/-- C9 witness: a delivered 200 response — after the network call the
body is read in full and closed before the callback fires. -/
theorem execute_body_read_and_closed_witness :
    ((∃ e, ([Event.bodyReadAll, Event.bodyClose, Event.cbSuccess] : List Event) =
      [Event.cbInternalError e]) ∧
      (Request.execute ⟨fun s => .ok s, fun _ => .ok ⟨200, "200 OK", .ok ""⟩, fun _ => none⟩
        (JSONAPI.R ⟨"b", [], []⟩) "GET" "/p" [] none (0 : Nat)
        (fun _ => .error "unused")).response = none) ∨
    ∃ rest, ([Event.bodyReadAll, Event.bodyClose, Event.cbSuccess] : List Event) =
      Event.bodyReadAll :: Event.bodyClose :: rest :=
  execute_body_read_and_closed
    ⟨fun s => .ok s, fun _ => .ok ⟨200, "200 OK", .ok ""⟩, fun _ => none⟩
    (JSONAPI.R ⟨"b", [], []⟩) "GET" "/p" [] none (0 : Nat) (fun _ => .error "unused")
    [] [Event.bodyReadAll, Event.bodyClose, Event.cbSuccess] rfl

/-- C10: the top-level verb methods are exactly a fresh builder (no
per-call headers) followed by the corresponding builder verb method —
same callback events, same returned response and error, same target; GET
and DELETE always pass a nil request body, so no payload serialization
can occur for them. -/
theorem verb_methods_delegate_to_builder {α : Type} (env : Env) (api : JSONAPI)
    (url : String) (parameters : Values) (requestBody : Option Payload) (t0 : α)
    (dec : String → Except GoError α) :
    JSONAPI.Get env api url parameters t0 dec =
      Request.Get env (api.R) url parameters t0 dec ∧
    JSONAPI.Put env api url parameters requestBody t0 dec =
      Request.Put env (api.R) url parameters t0 dec requestBody ∧
    JSONAPI.Post env api url parameters requestBody t0 dec =
      Request.Post env (api.R) url parameters t0 dec requestBody ∧
    JSONAPI.Delete env api url parameters t0 dec =
      Request.Delete env (api.R) url parameters t0 dec ∧
    JSONAPI.Get env api url parameters t0 dec =
      Request.execute env (api.R) "GET" url parameters none t0 dec ∧
    JSONAPI.Delete env api url parameters t0 dec =
      Request.execute env (api.R) "DELETE" url parameters none t0 dec :=
  ⟨rfl, rfl, rfl, rfl, rfl, rfl⟩

/-! ### The key order used by `Values.encode` is a linear order -/

theorem charsLe_total (as bs : List Char) : charsLe as bs = true ∨ charsLe bs as = true := by
  induction as generalizing bs with
  | nil => left; rfl
  | cons a as ih =>
    cases bs with
    | nil => right; rfl
    | cons b bs =>
      rcases lt_trichotomy a b with h | h | h
      · left; simp [charsLe, h]
      · subst h
        rcases ih bs with h2 | h2
        · left; simp [charsLe, lt_irrefl, h2]
        · right; simp [charsLe, lt_irrefl, h2]
      · right; simp [charsLe, h]

theorem charsLe_trans (as bs cs : List Char) (h1 : charsLe as bs = true)
    (h2 : charsLe bs cs = true) : charsLe as cs = true := by
  induction as generalizing bs cs with
  | nil => rfl
  | cons a as ih =>
    cases bs with
    | nil => simp [charsLe] at h1
    | cons b bs =>
      cases cs with
      | nil => simp [charsLe] at h2
      | cons c cs =>
        rcases lt_trichotomy a b with hab | hab | hab
        · rcases lt_trichotomy b c with hbc | hbc | hbc
          · simp [charsLe, lt_trans hab hbc]
          · subst hbc; simp [charsLe, hab]
          · simp [charsLe, lt_asymm hbc, hbc] at h2
        · subst hab
          rcases lt_trichotomy a c with hac | hac | hac
          · simp [charsLe, hac]
          · subst hac
            simp only [charsLe, lt_irrefl, if_false] at h1 h2 ⊢
            exact ih bs cs h1 h2
          · simp [charsLe, lt_asymm hac, hac] at h2
        · simp [charsLe, lt_asymm hab, hab] at h1

theorem charsLe_antisymm (as bs : List Char) (h1 : charsLe as bs = true)
    (h2 : charsLe bs as = true) : as = bs := by
  induction as generalizing bs with
  | nil =>
    cases bs with
    | nil => rfl
    | cons b bs => simp [charsLe] at h2
  | cons a as ih =>
    cases bs with
    | nil => simp [charsLe] at h1
    | cons b bs =>
      rcases lt_trichotomy a b with hab | hab | hab
      · simp [charsLe, lt_asymm hab, hab] at h2
      · subst hab
        simp only [charsLe, lt_irrefl, if_false] at h1 h2
        rw [ih bs h1 h2]
      · simp [charsLe, lt_asymm hab, hab] at h1

theorem stringLe_total (a b : String) : stringLe a b = true ∨ stringLe b a = true :=
  charsLe_total a.data b.data

theorem stringLe_trans (a b c : String) (h1 : stringLe a b = true)
    (h2 : stringLe b c = true) : stringLe a c = true :=
  charsLe_trans a.data b.data c.data h1 h2

theorem stringLe_antisymm (a b : String) (h1 : stringLe a b = true)
    (h2 : stringLe b a = true) : a = b := by
  have h := charsLe_antisymm a.data b.data h1 h2
  cases a
  cases b
  exact congrArg String.mk h

instance : IsTotal String (fun a b => stringLe a b = true) := ⟨stringLe_total⟩

instance : IsTrans String (fun a b => stringLe a b = true) := ⟨stringLe_trans⟩

instance : IsAntisymm String (fun a b => stringLe a b = true) := ⟨stringLe_antisymm⟩

/-! ### `Values.encode` is determined by the map contents alone -/

/-- In a map with distinct keys a member pair is what `find?` by its key
returns. -/
theorem find?_key_of_mem_nodup (v : Values) (p : String × List String)
    (hnd : (v.map Prod.fst).Nodup) (hmem : p ∈ v) :
    v.find? (fun q => q.1 == p.1) = some p := by
  induction v with
  | nil => simp at hmem
  | cons q v ih =>
    rcases List.mem_cons.mp hmem with rfl | hmem'
    · simp [List.find?]
    · have hq : q.1 ≠ p.1 := by
        intro he
        have hpm : p.1 ∈ v.map Prod.fst := List.mem_map_of_mem Prod.fst hmem'
        rw [← he] at hpm
        exact (List.nodup_cons.mp hnd).1 hpm
      have hqf : ((fun q' : String × List String => q'.1 == p.1) q) = false := by
        simpa using hq
      rw [List.find?_cons_of_neg _ (by simp [hqf])]
      exact ih (List.nodup_cons.mp hnd).2 hmem'

/-- `Values.get` only depends on the map contents: it is invariant under
permutation of the (distinct-key) association list. -/
theorem Values.get_eq_of_perm (v v' : Values) (hperm : v.Perm v')
    (hnd : (v.map Prod.fst).Nodup) (k : String) : Values.get v k = Values.get v' k := by
  have hnd' : (v'.map Prod.fst).Nodup := ((hperm.map Prod.fst).nodup_iff).mp hnd
  cases hf : v.find? (fun q => q.1 == k) with
  | none =>
    have h2 : v'.find? (fun q => q.1 == k) = none := by
      rw [List.find?_eq_none] at hf ⊢
      intro p hp
      exact hf p (hperm.symm.subset hp)
    simp [Values.get, hf, h2]
  | some p =>
    have hpmem : p ∈ v := List.mem_of_find?_eq_some hf
    have hpk : p.1 = k := by
      have := List.find?_some hf
      simpa using this
    have h2 : v'.find? (fun q => q.1 == k) = some p := by
      rw [← hpk]
      exact find?_key_of_mem_nodup v' p hnd' (hperm.subset hpmem)
    simp [Values.get, hf, h2]

/-- The sorted key list is invariant under permutation of the
association list. -/
theorem sortedKeys_eq_of_perm (v v' : Values) (hperm : v.Perm v') :
    List.insertionSort (fun a b : String => stringLe a b = true) (v.map Prod.fst) =
      List.insertionSort (fun a b : String => stringLe a b = true) (v'.map Prod.fst) :=
  List.eq_of_perm_of_sorted
    ((List.perm_insertionSort _ _).trans
      ((hperm.map Prod.fst).trans (List.perm_insertionSort _ _).symm))
    (List.sorted_insertionSort _ _) (List.sorted_insertionSort _ _)

/-- `Values.encode` is deterministic: any association-list order of the
same distinct-key map encodes to the same query string. -/
theorem Values.encode_eq_of_perm (v v' : Values) (hperm : v.Perm v')
    (hnd : (v.map Prod.fst).Nodup) : Values.encode v = Values.encode v' := by
  simp only [Values.encode]
  rw [sortedKeys_eq_of_perm v v' hperm]
  congr 1
  congr 1
  apply List.map_congr_left
  intro k _
  rw [Values.get_eq_of_perm v v' hperm hnd k]

/-- C8: the string handed to `url.Parse` is exactly
`baseURL ++ path ++ "?" ++ encode(params)`; the encoding orders keys
deterministically (any list order of the same map encodes identically,
keys emitted in sorted order), preserves multiple values per key in
order, and percent-escapes keys and values (with space as `+`). -/
theorem composed_url_spec :
    (∀ (api : JSONAPI) (u : String) (ps : Values),
      composedURL api u ps = api.BaseURL ++ u ++ "?" ++ Values.encode ps) ∧
    (∀ (ps ps' : Values), ps.Perm ps' → (ps.map Prod.fst).Nodup →
      Values.encode ps = Values.encode ps') ∧
    (∀ k v1 v2 : String, Values.encode [(k, [v1, v2])] =
      queryEscape k ++ "=" ++ queryEscape v1 ++ "&" ++
        (queryEscape k ++ "=" ++ queryEscape v2)) ∧
    queryEscape "a b&c" = "a+b%26c" := by
  refine ⟨fun api u ps => rfl,
    fun ps ps' h hnd => Values.encode_eq_of_perm ps ps' h hnd, ?_, by decide⟩
  intro k v1 v2
  have hsort : List.insertionSort (fun a b : String => stringLe a b = true) [k] = [k] := rfl
  have hget : Values.get [(k, [v1, v2])] k = [v1, v2] := by simp [Values.get]
  simp only [Values.encode, List.map_cons, List.map_nil, hsort, hget, List.flatten_cons,
    List.flatten_nil, List.append_nil]
  rfl

/-- C8 witness: two orders of the same two-key map encode identically. -/
theorem composed_url_spec_witness :
    ([("b", ["2"]), ("a", ["1"])] : Values).Perm [("a", ["1"]), ("b", ["2"])] ∧
    (([("b", ["2"]), ("a", ["1"])] : Values).map Prod.fst).Nodup ∧
    Values.encode [("b", ["2"]), ("a", ["1"])] =
      Values.encode [("a", ["1"]), ("b", ["2"])] :=
  ⟨by decide, by decide, composed_url_spec.2.1 _ _ (by decide) (by decide)⟩
